import Mathlib

/-!
# Verification of the clean-corpus deduplication core

A shallow embedding of the priority resolver, the fingerprint stores, the
global fingerprint manager, the checkpoint store and the local pipeline
driver of the clean-corpus platform, together with theorems settling the
frozen claims about them.

Python strings are modelled as `List Char`; Python `dict`s as association
lists that preserve insertion order (as Python dicts do); file systems as
association lists from path keys to contents; the interpreter-dependent
`hash` builtin and the external SHA-256 digest are parameters of the
embedding (fields `pyHash` / `sha` of the manager).  Machine-independent
integer arithmetic is `Nat`/`Int`.
-/

namespace CleanCorpus

/-! ## Python string primitives -/

/-- Python whitespace for `str.strip` / `str.split`. -/
def isSpaceB (c : Char) : Bool :=
  c = ' ' || c = '\t' || c = '\n' || c = '\r' || c = '\x0b' || c = '\x0c'

/-- Python `str.strip()`: drop leading and trailing whitespace. -/
def pyStrip (l : List Char) : List Char :=
  ((l.dropWhile isSpaceB).reverse.dropWhile isSpaceB).reverse

/-- Python `str.lower()` (ASCII-faithful). -/
def pyLower (l : List Char) : List Char := l.map Char.toLower

/-- `s.strip().lower()`, the normalization both rank functions apply. -/
def normS (l : List Char) : List Char := pyLower (pyStrip l)

/-- Python `needle in haystack` on strings (contiguous substring). -/
def isInfixB (p : List Char) : List Char → Bool
  | [] => p.isPrefixOf []
  | c :: rest => p.isPrefixOf (c :: rest) || isInfixB p rest

/-! ## Priority resolver (`fingerprints/priority.py`) -/

/-- The match test of both rank functions: `t == L or t.startswith(L) or L in t`
(both sides already normalized). -/
def labelMatchB (t L : List Char) : Bool :=
  t == L || L.isPrefixOf t || isInfixB L t

/-- The `for i, label in enumerate(...)` loop shared by
`document_type_priority_rank` and `source_priority_rank`: blank labels are
skipped (`if not L: continue`), the first matching label's index is returned,
and the list length when none matches.  `s` is the normalized subject. -/
def rankLoop (s : List Char) : List (List Char) → Nat → Nat
  | [], i => i
  | label :: rest, i =>
    let L := normS label
    if L = [] then rankLoop s rest (i + 1)
    else if labelMatchB s L then i
    else rankLoop s rest (i + 1)

/-- `document_type_priority_rank(doc_type, type_order)`. -/
def document_type_priority_rank (doc_type : List Char) (type_order : List (List Char)) : Nat :=
  if type_order = [] then 0 else rankLoop (normS doc_type) type_order 0

/-- `source_priority_rank(source, priority_order)`. -/
def source_priority_rank (source : List Char) (priority_order : List (List Char)) : Nat :=
  if priority_order = [] then 0 else rankLoop (normS source) priority_order 0

/-- Python `min` over a non-empty list (0 for the empty list, which the code
never reaches). -/
def minList : List Nat → Nat
  | [] => 0
  | a :: t => t.foldl min a

/-- `should_keep_incoming_by_priority(incoming_source, existing_sources, priority_order)`. -/
def should_keep_incoming_by_priority (incoming : List Char) (existing : List (List Char))
    (priority_order : List (List Char)) : Bool :=
  if priority_order = [] then false
  else
    let ir := source_priority_rank incoming priority_order
    let ers := existing.map (fun s => source_priority_rank s priority_order)
    match ers with
    | [] => true
    | e :: rest => decide (ir < rest.foldl min e)

/-- The literal `"unknown"` used for sources without a configured type. -/
def unknownT : List Char := "unknown".data

/-- Ordered-dict lookup. -/
def assocGet (m : List (List Char × List Char)) (k : List Char) : Option (List Char) :=
  match m with
  | [] => none
  | (a, b) :: rest => if a = k then some b else assocGet rest k

/-- `source_to_document_type.get(s) or "unknown"` (a `None` or empty-string
value falls back to `"unknown"`, as Python `or` does). -/
def typeOfSource (s2t : List (List Char × List Char)) (src : List Char) : List Char :=
  match assocGet s2t src with
  | some v => if v = [] then unknownT else v
  | none => unknownT

/-- `should_keep_incoming_by_type_and_source(...)`: family rank first, then
optional source-level priority inside the family. -/
def should_keep_incoming_by_type_and_source (incoming : List Char) (existing : List (List Char))
    (dtp : List (List Char)) (s2t : List (List Char × List Char))
    (sp : Option (List (List Char))) : Bool :=
  if dtp = [] ∨ s2t = [] then false
  else
    let it := typeOfSource s2t incoming
    let ets := existing.map (typeOfSource s2t)
    let ir := document_type_priority_rank it dtp
    let ers := ets.map (fun t => document_type_priority_rank t dtp)
    match ers with
    | [] => true
    | e :: rest =>
      let be := rest.foldl min e
      if ir < be then true
      else if be < ir then false
      else
        match sp with
        | some l => if l = [] then false else should_keep_incoming_by_priority incoming existing l
        | none => false

/-! ### Claim-worded rank (for claim C5)

The claim reads the rank functions as "the index of the first list entry that
matches by case-insensitive equality, prefix, or substring, and the list
length when no entry matches".  `rankPerClaim` renders those words directly:
no entry is skipped. -/

/-- The claim's match relation: after stripping and lowercasing both sides,
equality, prefix or substring. -/
def specMatchB (s entry : List Char) : Bool :=
  labelMatchB (normS s) (normS entry)

/-- Modelled from claim C5's words: index of the first matching entry, else
the list length.  (No blank-entry skipping.) -/
def rankPerClaim (s : List Char) : List (List Char) → Nat
  | [] => 0
  | e :: rest => if specMatchB s e then 0 else rankPerClaim s rest + 1

/-- The amended rank specification: an entry that is blank after stripping
never matches (the code skips it); otherwise as the claim says. -/
def entryMatchesB (s e : List Char) : Bool :=
  !(normS e).isEmpty && specMatchB s e

/-- Index of the first non-blank matching entry, else the list length. -/
def rankAmended (s : List Char) : List (List Char) → Nat
  | [] => 0
  | e :: rest => if entryMatchesB s e then 0 else rankAmended s rest + 1

theorem rankLoop_eq_rankAmended (s : List Char) :
    ∀ (order : List (List Char)) (i : Nat),
      rankLoop (normS s) order i = i + rankAmended s order := by
  intro order
  induction order with
  | nil => intro i; simp [rankLoop, rankAmended]
  | cons e rest ih =>
    intro i
    by_cases hL : normS e = []
    · simp [rankLoop, rankAmended, hL, entryMatchesB, ih, Nat.add_assoc, Nat.add_comm 1]
    · by_cases hm : labelMatchB (normS s) (normS e) = true
      · simp [rankLoop, rankAmended, hL, entryMatchesB, specMatchB, hm,
          List.isEmpty_iff, Nat.add_comm]
      · simp [rankLoop, rankAmended, hL, entryMatchesB, specMatchB, hm,
          List.isEmpty_iff, ih, Nat.add_assoc, Nat.add_comm 1]

theorem source_priority_rank_eq_amended (s : List Char) (order : List (List Char)) :
    source_priority_rank s order = rankAmended s order := by
  rcases order with _ | ⟨e, rest⟩
  · simp [source_priority_rank, rankAmended]
  · simp [source_priority_rank, rankLoop_eq_rankAmended]

theorem lt_foldl_min {ir : Nat} :
    ∀ (l : List Nat) (a : Nat), ir < a → (∀ x ∈ l, ir < x) → ir < l.foldl min a := by
  intro l
  induction l with
  | nil => intro a ha _; simpa using ha
  | cons x t ih =>
    intro a ha hall
    simp only [List.foldl_cons]
    exact ih (min a x) (lt_min ha (hall x (by simp))) fun y hy => hall y (by simp [hy])

/-! ## String constants used by concrete scenarios -/

def strX : List Char := "x".data
def strA : List Char := "A".data
def strB : List Char := "B".data
def strEn : List Char := "en".data
def strOne : List Char := "1".data
def strBooks : List Char := "books".data
def strWeb : List Char := "web".data
def strBook1 : List Char := "book1".data
def strWeb1 : List Char := "web1".data

/-! ## Claims C4 and C5 -/

/-- C5: `document_type_priority_rank` and `source_priority_rank` return the
index of the first list entry that matches by case-insensitive equality,
prefix, or substring — **amended**: an entry that is blank after stripping is
skipped and never matches — and return the list length when no entry matches;
and in `should_keep_incoming_by_priority` an incoming source matched by some
entry is always kept over existing sources matched by no entry. -/
theorem C5_rank_spec_and_ranked_beats_unranked :
    (∀ (s : List Char) (order : List (List Char)),
        source_priority_rank s order = rankAmended s order ∧
        document_type_priority_rank s order = rankAmended s order) ∧
    (∀ (inc : List Char) (existing : List (List Char)) (order : List (List Char)),
        existing ≠ [] →
        source_priority_rank inc order < order.length →
        (∀ e ∈ existing, source_priority_rank e order = order.length) →
        should_keep_incoming_by_priority inc existing order = true) := by
  constructor
  · intro s order
    constructor
    · exact source_priority_rank_eq_amended s order
    · rcases order with _ | ⟨e, rest⟩
      · simp [document_type_priority_rank, rankAmended]
      · simp [document_type_priority_rank, rankLoop_eq_rankAmended]
  · intro inc existing order hex hinc hall
    rcases order with _ | ⟨o, os⟩
    · simp at hinc
    rcases existing with _ | ⟨a, t⟩
    · exact absurd rfl hex
    simp only [should_keep_incoming_by_priority, List.map_cons]
    rw [if_neg (by simp)]
    have ha : source_priority_rank inc (o :: os) < source_priority_rank a (o :: os) := by
      rw [hall a (by simp)]; exact hinc
    have hrest : ∀ x ∈ t.map (fun s => source_priority_rank s (o :: os)),
        source_priority_rank inc (o :: os) < x := by
      intro x hx
      rcases List.mem_map.1 hx with ⟨y, hy, rfl⟩
      rw [hall y (by simp [hy])]; exact hinc
    simpa using lt_foldl_min (t.map fun s => source_priority_rank s (o :: os)) _ ha hrest

/-- C5 counterexample: with the priority list `[""]` (one blank entry) and
source `"x"`, the claim's rank (the blank entry matches `"x"` as a substring,
so rank 0) differs from the code's rank (the blank entry is skipped, so rank
1 = list length). -/
theorem C5_blank_entry_counterexample :
    source_priority_rank strX [[]] = 1 ∧ rankPerClaim strX [[]] = 0 ∧
    ¬ source_priority_rank strX [[]] = rankPerClaim strX [[]] := by
  refine ⟨by decide, by decide, by decide⟩

/-- C5 witness: a ranked incoming source (`"book1"`, matched by entry
`"book1"`) is kept over an unranked existing source (`"x"`). -/
theorem C5_ranked_beats_unranked_witness :
    should_keep_incoming_by_priority strBook1 [strX] [strBook1] = true :=
  C5_rank_spec_and_ranked_beats_unranked.2 strBook1 [strX] [strBook1]
    (by decide) (by decide) (by decide)

/-- C4: `should_keep_incoming_by_type_and_source` keeps the incoming document
whenever its type rank is strictly lower (better) than the best rank among the
existing matches' types, drops it whenever strictly higher (worse), and on
equal rank falls through to source-level ranking when `source_priority` is
configured, returning `false` (keep existing) otherwise. -/
theorem C4_type_then_source_priority
    (incoming : List Char) (existing : List (List Char))
    (dtp : List (List Char)) (s2t : List (List Char × List Char))
    (sp : Option (List (List Char)))
    (hdtp : dtp ≠ []) (hs2t : s2t ≠ []) (hex : existing ≠ []) :
    (document_type_priority_rank (typeOfSource s2t incoming) dtp <
        minList (existing.map fun s => document_type_priority_rank (typeOfSource s2t s) dtp) →
      should_keep_incoming_by_type_and_source incoming existing dtp s2t sp = true) ∧
    (minList (existing.map fun s => document_type_priority_rank (typeOfSource s2t s) dtp) <
        document_type_priority_rank (typeOfSource s2t incoming) dtp →
      should_keep_incoming_by_type_and_source incoming existing dtp s2t sp = false) ∧
    (document_type_priority_rank (typeOfSource s2t incoming) dtp =
        minList (existing.map fun s => document_type_priority_rank (typeOfSource s2t s) dtp) →
      should_keep_incoming_by_type_and_source incoming existing dtp s2t sp =
        (match sp with
         | some l => if l = [] then false
                     else should_keep_incoming_by_priority incoming existing l
         | none => false)) := by
  rcases existing with _ | ⟨a, t⟩
  · exact absurd rfl hex
  simp only [should_keep_incoming_by_type_and_source, List.map_cons, minList]
  rw [if_neg (by simp [hdtp, hs2t])]
  simp only [List.map_map, Function.comp_def]
  refine ⟨fun h => ?_, fun h => ?_, fun h => ?_⟩
  · rw [if_pos h]
  · rw [if_neg (by omega), if_pos h]
  · rw [if_neg (by omega), if_neg (by omega)]

/-- C4 witness: with `document_type_priority = ["books", "web"]`, a `"web"`
incoming document loses to an existing `"books"` document (strictly worse
family rank ⇒ drop incoming). -/
theorem C4_worse_family_rank_witness :
    should_keep_incoming_by_type_and_source strWeb1 [strBook1]
      [strBooks, strWeb] [(strBook1, strBooks), (strWeb1, strWeb)] none = false :=
  (C4_type_then_source_priority strWeb1 [strBook1] [strBooks, strWeb]
      [(strBook1, strBooks), (strWeb1, strWeb)] none
      (by decide) (by decide) (by decide)).2.1 (by decide)

/-! ## Hashing primitives (`fingerprints/simhash_store.py`, `utils/hashing.py`)

Python's builtin `hash` is interpreter-dependent and SHA-256 is an external
digest; both are parameters of the embedding (`pyHash`, `sha`). -/

/-- Bit-count with structural fuel (the fuel `n` always suffices for `n`),
so the kernel can evaluate it. -/
def popcountAux : Nat → Nat → Nat
  | 0, _ => 0
  | fuel + 1, n => if n = 0 then 0 else n % 2 + popcountAux fuel (n / 2)

/-- `bin(x).count("1")`. -/
def popcount (n : Nat) : Nat := popcountAux n n

/-- `hamming_distance(a, b)` (64-bit branch): popcount of the xor. -/
def hamming_distance (a b : Nat) : Nat := popcount (a ^^^ b)

theorem hamming_distance_comm (a b : Nat) : hamming_distance a b = hamming_distance b a := by
  unfold hamming_distance
  rw [Nat.xor_comm]

/-- A character matched by the token regex `[A-Za-z0-9_]`. -/
def isWordCharB (c : Char) : Bool :=
  ('A' ≤ c && c ≤ 'Z') || ('a' ≤ c && c ≤ 'z') || ('0' ≤ c && c ≤ '9') || c = '_'

/-- Maximal runs of word characters (the regex `findall`). -/
def wordRuns : List Char → List Char → List (List Char)
  | [], cur => if cur = [] then [] else [cur.reverse]
  | c :: rest, cur =>
    if isWordCharB c then wordRuns rest (c :: cur)
    else if cur = [] then wordRuns rest [] else cur.reverse :: wordRuns rest []

/-- `_WORD_RE.findall(text)`: runs of `[A-Za-z0-9_]` of length at least 2. -/
def findWordTokens (t : List Char) : List (List Char) :=
  (wordRuns t []).filter fun w => 2 ≤ w.length

/-- Python `(h >> i) & 1` on a signed integer (arithmetic shift). -/
def pyBit (h : Int) (i : Nat) : Int := Int.fdiv h (2 ^ i) % 2

/-- The signed per-bit score of `_simhash64`: +1 for each token whose hash has
bit `i` set, -1 otherwise. -/
def simhashScore (pyHash : List Char → Int) (tokens : List (List Char)) (i : Nat) : Int :=
  tokens.foldl (fun acc tok => acc + (if pyBit (pyHash tok) i = 1 then 1 else -1)) 0

/-- `_simhash64(tokens)`: bit `i` of the signature is set iff the score of bit
`i` is positive. -/
def _simhash64 (pyHash : List Char → Int) (tokens : List (List Char)) : Nat :=
  (List.range 64).foldl
    (fun out i => if 0 < simhashScore pyHash tokens i then out + 2 ^ i else out) 0

/-- `SimHashStore.compute_simhash(text, max_tokens)`. -/
def compute_simhash (pyHash : List Char → Int) (text : List Char) (maxTokens : Nat) : Nat :=
  _simhash64 pyHash ((findWordTokens (pyLower text)).take maxTokens)

/-! ## Chunking (`fingerprints/chunk_hash_store.py`) -/

/-- Python `text.split()` (split on whitespace runs, dropping empties);
`cur` is the current word reversed. -/
def splitWS : List Char → List Char → List (List Char)
  | [], cur => if cur = [] then [] else [cur.reverse]
  | c :: rest, cur =>
    if isSpaceB c then
      if cur = [] then splitWS rest [] else cur.reverse :: splitWS rest []
    else splitWS rest (c :: cur)

/-- `_normalize_chunk(text)`: `" ".join(text.split())`. -/
def pyNormalize (t : List Char) : List Char :=
  List.intercalate [' '] (splitWS t [])

/-- The `while start < len(text)` loop of `chunk_text`, with structural fuel:
`none` means the fuel ran out with the loop still running.  One step appends
`text[start:start+size]` and advances `start` to `start + size - overlap`
when `overlap` is non-zero, else to `start + size`. -/
def chunkLoopFuel (size ov : Nat) (t : List Char) : Nat → Nat → Option (List (List Char))
  | 0, start => if start < t.length then none else some []
  | fuel + 1, start =>
    if start < t.length then
      match chunkLoopFuel size ov t fuel (if ov ≠ 0 then start + size - ov else start + size) with
      | some rest => some ((t.drop start).take size :: rest)
      | none => none
    else some []

/-- `chunk_text(text, chunk_size, overlap)`.  The fuel `length + 1` is exact
whenever `overlap < chunk_size` (claim C10); outside that region the Python
loop does not terminate and the embedding falls back to `[]`. -/
def chunk_text (t : List Char) (size ov : Nat) : List (List Char) :=
  let tn := pyNormalize t
  if tn = [] then []
  else if size = 0 then [tn]
  else (chunkLoopFuel size ov tn (tn.length + 1) 0).getD []

/-- `str(i)` for the chunk id. -/
def pyStr (n : Nat) : List Char := Nat.toDigits 10 n

/-- `ChunkHashStore.compute_chunk_hashes(text, chunk_size, overlap)`:
`[(sha256(normalized chunk), str(index))]`. -/
def compute_chunk_hashes (sha : List Char → Nat) (text : List Char) (size ov : Nat) :
    List (Nat × List Char) :=
  (chunk_text text size ov).enum.map fun p => (sha (pyNormalize p.2), pyStr p.1)

theorem chunkLoopFuel_stuck (size ov : Nat) (t : List Char)
    (h1 : 0 < size) (h2 : size ≤ ov) (h3 : 0 < t.length) :
    ∀ fuel : Nat, chunkLoopFuel size ov t fuel 0 = none := by
  intro fuel
  induction fuel with
  | zero => simp [chunkLoopFuel, h3]
  | succ f ih =>
    have hov : ov ≠ 0 := by omega
    simp only [chunkLoopFuel]
    rw [if_pos h3, if_pos hov]
    have hz : 0 + size - ov = 0 := by omega
    rw [hz, ih]

theorem chunkLoopFuel_complete (size ov : Nat) (t : List Char) (hlt : ov < size) :
    ∀ (fuel start : Nat), t.length ≤ start + fuel →
      (chunkLoopFuel size ov t fuel start).isSome = true := by
  intro fuel
  induction fuel with
  | zero =>
    intro start h
    have : ¬ start < t.length := by omega
    simp [chunkLoopFuel, this]
  | succ f ih =>
    intro start h
    by_cases hs : start < t.length
    · have hstep : t.length ≤ (if ov ≠ 0 then start + size - ov else start + size) + f := by
        by_cases hov : ov = 0
        · simp [hov]; omega
        · simp [hov]; omega
      have := ih (if ov ≠ 0 then start + size - ov else start + size) hstep
      simp only [chunkLoopFuel]
      rw [if_pos hs]
      rcases ho : chunkLoopFuel size ov t f (if ov ≠ 0 then start + size - ov else start + size)
        with _ | rest
      · rw [ho] at this; simp at this
      · simp [ho]
    · simp [chunkLoopFuel, hs]

/-- C10: the `chunk_text` loop (and hence `compute_chunk_hashes` and the
chunk-hash paths of `query_and_decide` / `add_fingerprints`) terminates for
every text only under `chunk_overlap < chunk_size`: when
`0 < chunk_size ≤ overlap` and the normalized text is longer than
`chunk_size`, no amount of fuel completes the loop (the start index never
advances past the text); when `overlap < chunk_size`, fuel `length + 1`
always completes it. -/
theorem C10_chunk_loop_termination :
    (∀ (size ov : Nat) (t : List Char) (fuel : Nat),
        0 < size → size ≤ ov → size < (pyNormalize t).length →
        chunkLoopFuel size ov (pyNormalize t) fuel 0 = none) ∧
    (∀ (size ov : Nat) (t : List Char), ov < size →
        (chunkLoopFuel size ov (pyNormalize t) ((pyNormalize t).length + 1) 0).isSome = true) := by
  constructor
  · intro size ov t fuel h1 h2 h3
    exact chunkLoopFuel_stuck size ov (pyNormalize t) h1 h2 (by omega) fuel
  · intro size ov t hlt
    exact chunkLoopFuel_complete size ov (pyNormalize t) hlt _ 0 (by omega)

/-- C10 witness: with `chunk_size = 1 ≤ overlap = 1`, the loop on the
two-character text `"ab"` is still running after 5 steps; with
`overlap = 0 < chunk_size = 1` it completes within the standard fuel. -/
theorem C10_chunk_loop_witness :
    chunkLoopFuel 1 1 (pyNormalize strBook1) 5 0 = none ∧
    (chunkLoopFuel 1 0 (pyNormalize strBook1) ((pyNormalize strBook1).length + 1) 0).isSome
      = true :=
  ⟨C10_chunk_loop_termination.1 1 1 strBook1 5 (by decide) (by decide) (by decide),
   C10_chunk_loop_termination.2 1 0 strBook1 (by decide)⟩

/-! ## Fingerprint stores

Each store keeps an in-memory cache (a Python dict from fingerprint value to
the list of records, modelled as an insertion-ordered association list) and a
persisted index directory (one file per fingerprint value, modelled as an
association list from the value to the last payload written — `write_file`
overwrites). -/

/-- A SimHash fingerprint record (the fields the store and decision read). -/
structure SimRec where
  fpId : Nat
  value : Nat
  docId : Nat
  source : List Char
deriving DecidableEq

/-- `SimHashStore`: cache keyed by the 64-bit signature, persisted files
keyed by the signature hex (modelled by the signature itself). -/
structure SimStore where
  maxHamming : Nat
  cache : List (Nat × List SimRec)
  files : List (Nat × SimRec)
deriving DecidableEq

/-- `dict.setdefault(k, []).append(r)`. -/
def bucketAdd {α : Type} (cache : List (Nat × List α)) (k : Nat) (r : α) : List (Nat × List α) :=
  match cache with
  | [] => [(k, [r])]
  | (a, rs) :: rest => if a = k then (a, rs ++ [r]) :: rest else (a, rs) :: bucketAdd rest k r

/-- Overwriting file write at an existing or fresh path key. -/
def assocSet {α : Type} (fs : List (Nat × α)) (k : Nat) (v : α) : List (Nat × α) :=
  match fs with
  | [] => [(k, v)]
  | (a, b) :: rest => if a = k then (a, v) :: rest else (a, b) :: assocSet rest k v

/-- Plain dict lookup `d.get(k)`. -/
def assocFind {α : Type} (m : List (Nat × α)) (k : Nat) : Option α :=
  match m with
  | [] => none
  | (a, b) :: rest => if a = k then some b else assocFind rest k

/-- `SimHashStore.query(value)`: every record whose cached signature is within
`max_hamming` of the query signature (linear scan over the cache). -/
def simMatches (st : SimStore) (sig : Nat) : List SimRec :=
  st.cache.foldl
    (fun acc p => if hamming_distance sig p.1 ≤ st.maxHamming then acc ++ p.2 else acc) []

def simQuery (st : SimStore) (sig : Nat) : Bool × List SimRec :=
  (decide (0 < (simMatches st sig).length), simMatches st sig)

/-- `SimHashStore.add(record)`: append to the cache bucket and persist one
file keyed by the signature. -/
def simAdd (st : SimStore) (r : SimRec) : SimStore :=
  { st with cache := bucketAdd st.cache r.value r, files := assocSet st.files r.value r }

/-- A chunk-hash fingerprint record. -/
structure ChunkRec where
  fpId : Nat
  value : Nat
  docId : Nat
  chunkId : Option (List Char)
  source : List Char
deriving DecidableEq

/-- `ChunkHashStore`: cache keyed by the chunk digest (exact lookup). -/
structure ChunkStore where
  chunkSize : Nat
  chunkOverlap : Nat
  cache : List (Nat × List ChunkRec)
  files : List (Nat × ChunkRec)
deriving DecidableEq

/-- `ChunkHashStore.query(value)`: `records = self._cache.get(h, [])`. -/
def chunkQuery (st : ChunkStore) (h : Nat) : Bool × List ChunkRec :=
  let records := (assocFind st.cache h).getD []
  (decide (0 < records.length), records)

/-- `ChunkHashStore.add(record)`. -/
def chunkAdd (st : ChunkStore) (r : ChunkRec) : ChunkStore :=
  { st with cache := bucketAdd st.cache r.value r, files := assocSet st.files r.value r }

/-- A MinHash doc record (`_key_to_record` values; the stored `value` is
`None`). -/
structure MinRec where
  fpId : Nat
  docId : Nat
  source : List Char
deriving DecidableEq

/-- `MinHashStore`.  The LSH banding lives in the external `datasketch`
library, so the embedding keeps the query as an opaque oracle `qfn` from the
text to the hit list, while `keyToRec` / `docsFile` mirror `_key_to_record`
and `minhash_docs.json` (rewritten whole on every add/flush). -/
structure MinStore where
  qfn : List Char → Bool × List MinRec
  keyToRec : List (Nat × MinRec)
  nextKey : Nat
  docsFile : List (Nat × MinRec)

def minQuery (st : MinStore) (text : List Char) : Bool × List MinRec := st.qfn text

/-- `MinHashStore.add(record)`: fresh key `k{next}`, record appended, doc
file rewritten. -/
def minAdd (st : MinStore) (r : MinRec) : MinStore :=
  { st with keyToRec := st.keyToRec ++ [(st.nextKey, r)],
            nextKey := st.nextKey + 1,
            docsFile := st.keyToRec ++ [(st.nextKey, r)] }

/-! ## Metrics (`fingerprints/metrics.py`) -/

structure Metrics where
  total_checked : Nat
  total_dropped : Nat
  total_kept : Nat
  total_kept_linked : Nat
  simhash_hits : Nat
  minhash_hits : Nat
  chunk_hash_hits : Nat
  cross_dataset_collisions : Nat
  source_drop_counts : List (List Char × Nat)
  source_kept_counts : List (List Char × Nat)
deriving DecidableEq

def emptyMetrics : Metrics := ⟨0, 0, 0, 0, 0, 0, 0, 0, [], []⟩

def bumpCount (m : List (List Char × Nat)) (k : List Char) : List (List Char × Nat) :=
  match m with
  | [] => [(k, 1)]
  | (a, n) :: rest => if a = k then (a, n + 1) :: rest else (a, n) :: bumpCount rest k

def simhashS : List Char := "simhash".data
def minhashS : List Char := "minhash".data
def chunkHashS : List Char := "chunk_hash".data
def emptyS : List Char := []

/-- `FingerprintMetrics.record_decision(source, dropped, kept_linked, match_type)`. -/
def record_decision (ms : Metrics) (source : List Char) (dropped kept_linked : Bool)
    (mt : List Char) : Metrics :=
  let ms := { ms with total_checked := ms.total_checked + 1 }
  if dropped then
    let ms := { ms with total_dropped := ms.total_dropped + 1,
                        source_drop_counts := bumpCount ms.source_drop_counts source }
    if mt = simhashS then { ms with simhash_hits := ms.simhash_hits + 1 }
    else if mt = minhashS then { ms with minhash_hits := ms.minhash_hits + 1 }
    else if mt = chunkHashS then { ms with chunk_hash_hits := ms.chunk_hash_hits + 1 }
    else ms
  else
    let ms := if kept_linked then { ms with total_kept_linked := ms.total_kept_linked + 1 }
              else { ms with total_kept := ms.total_kept + 1 }
    { ms with source_kept_counts := bumpCount ms.source_kept_counts source }

/-! ## Decision schema (`fingerprints/schema.py`) -/

inductive DedupAction
  | DROP
  | KEEP
  | KEEP_LINK
deriving DecidableEq

structure DedupDecision where
  action : DedupAction
  match_type : Option (List Char)
  existing_doc_ids : List Nat
  existing_sources : List (List Char)
  duplicate_chunk_ids : List (List Char)
  reason : List Char
deriving DecidableEq

def reasonSimKeep : List Char := "SimHash match but incoming has higher priority; keep".data
def reasonSimDrop : List Char := "SimHash match (coarse duplicate)".data
def reasonMinKeep : List Char := "MinHash match but incoming has higher priority; keep".data
def reasonMinDrop : List Char := "MinHash near-duplicate".data
def reasonChunkLink : List Char := "Partial chunk overlap; keep with link".data

/-! ## Global fingerprint manager (`fingerprints/manager.py`) -/

structure Manager where
  pyHash : List Char → Int
  sha : List Char → Nat
  simhash : Option SimStore
  minhash : Option MinStore
  chunk : Option ChunkStore
  simhash_drop_on_match : Bool
  minhash_drop_on_match : Bool
  chunk_drop_duplicate_chunks_only : Bool
  source_priority : List (List Char)
  document_type_priority : List (List Char)
  source_to_document_type : List (List Char × List Char)
  metrics : Metrics
  nextFpId : Nat

/-- `GlobalFingerprintManager._should_keep_incoming`. -/
def shouldKeepIncomingM (m : Manager) (src : List Char) (existing : List (List Char)) : Bool :=
  if m.document_type_priority ≠ [] ∧ m.source_to_document_type ≠ [] then
    should_keep_incoming_by_type_and_source src existing m.document_type_priority
      m.source_to_document_type
      (if m.source_priority = [] then none else some m.source_priority)
  else if m.source_priority ≠ [] then
    should_keep_incoming_by_priority src existing m.source_priority
  else false

/-- The `for chunk_h, chunk_id in chunks` loop of `query_and_decide`: collect
the duplicate chunk ids and the sources of the matching records. -/
def chunkScan (st : ChunkStore) (chunks : List (Nat × List Char)) :
    List (List Char) × List (List Char) :=
  chunks.foldl
    (fun (acc : List (List Char) × List (List Char)) (p : Nat × List Char) =>
      let q := chunkQuery st p.1
      if q.1 then (acc.1 ++ [p.2], acc.2 ++ q.2.map fun r => r.source)
      else acc)
    ([], [])

/-- The two returns that close `query_and_decide` once the duplicate chunk
ids `dup` are known: the `KEEP_LINK` early return when chunk matches exist
and `chunk_drop_duplicate_chunks_only` is set, else the final return. -/
def qadChunkFinish (m : Manager) (source : List Char) (ids : List Nat)
    (srcs2 : List (List Char)) (mt : Option (List Char)) (dup : List (List Char)) :
    DedupDecision × Metrics :=
  if !dup.isEmpty && m.chunk_drop_duplicate_chunks_only then
    (⟨.KEEP_LINK, some chunkHashS, ids, srcs2, dup, reasonChunkLink⟩,
     { m.metrics with chunk_hash_hits := m.metrics.chunk_hash_hits + dup.length })
  else
    (⟨if dup.isEmpty then .KEEP else .KEEP_LINK, mt, ids, srcs2, dup, emptyS⟩,
     record_decision m.metrics source false (!dup.isEmpty) (mt.getD emptyS))

/-- The chunk-hash stage and final return of `query_and_decide` (everything
after the SimHash / MinHash early returns), with the doc-id / source lists
and match type accumulated by the earlier stages. -/
def qadChunkStage (m : Manager) (source text : List Char)
    (chunkHashes : Option (List (Nat × List Char)))
    (ids : List Nat) (srcs : List (List Char)) (mt : Option (List Char)) :
    DedupDecision × Metrics :=
  let chunkResult : List (List Char) × List (List Char) :=
    match m.chunk with
    | some st =>
      chunkScan st (chunkHashes.getD (compute_chunk_hashes m.sha text st.chunkSize st.chunkOverlap))
    | none => ([], [])
  qadChunkFinish m source ids (srcs ++ chunkResult.2) mt chunkResult.1

/-- The MinHash stage of `query_and_decide`. -/
def qadMinStage (m : Manager) (source lang text : List Char)
    (chunkHashes : Option (List (Nat × List Char)))
    (ids : List Nat) (srcs : List (List Char)) (mt : Option (List Char)) :
    DedupDecision × Metrics :=
  match m.minhash with
  | some st =>
    let q := minQuery st text
    if q.1 then
      let ids2 := ids ++ q.2.map fun r => r.docId
      let srcs2 := srcs ++ q.2.map fun r => r.source
      if m.minhash_drop_on_match then
        if shouldKeepIncomingM m source srcs2 then
          (⟨.KEEP, some minhashS, ids2, srcs2, [], reasonMinKeep⟩,
           record_decision m.metrics source false false minhashS)
        else
          let ms := record_decision m.metrics source true false minhashS
          let ms := if 1 < srcs2.dedup.length then
              { ms with cross_dataset_collisions := ms.cross_dataset_collisions + 1 }
            else ms
          (⟨.DROP, some minhashS, ids2, srcs2, [], reasonMinDrop⟩, ms)
      else qadChunkStage m source text chunkHashes ids2 srcs2 (some minhashS)
    else qadChunkStage m source text chunkHashes ids srcs mt
  | none => qadChunkStage m source text chunkHashes ids srcs mt

/-- `GlobalFingerprintManager.query_and_decide(doc_id, source, language, text,
simhash_sig, minhash_sig, chunk_hashes)`: SimHash → MinHash → ChunkHash, with
the early-return decision logic of each stage.  Returns the decision and the
updated metrics. -/
def query_and_decide (m : Manager) (docId : Nat) (source lang text : List Char)
    (simhashSig : Option Nat) (chunkHashes : Option (List (Nat × List Char))) :
    DedupDecision × Metrics :=
  match m.simhash with
  | some st =>
    let sig := simhashSig.getD (compute_simhash m.pyHash text 2000)
    let q := simQuery st sig
    if q.1 then
      let ids2 := q.2.map fun r => r.docId
      let srcs2 := q.2.map fun r => r.source
      if m.simhash_drop_on_match then
        if shouldKeepIncomingM m source srcs2 then
          (⟨.KEEP, some simhashS, ids2, srcs2, [], reasonSimKeep⟩,
           record_decision m.metrics source false false simhashS)
        else
          let ms := record_decision m.metrics source true false simhashS
          let ms := if 1 < srcs2.dedup.length then
              { ms with cross_dataset_collisions := ms.cross_dataset_collisions + 1 }
            else ms
          (⟨.DROP, some simhashS, ids2, srcs2, [], reasonSimDrop⟩, ms)
      else qadMinStage m source lang text chunkHashes ids2 srcs2 (some simhashS)
    else qadMinStage m source lang text chunkHashes [] [] none
  | none => qadMinStage m source lang text chunkHashes [] [] none

/-- The `for chunk_h, chunk_id in compute_chunk_hashes(...)` loop of
`add_fingerprints`: one record per chunk, each with a fresh fingerprint id. -/
def chunkAddAll (docId : Nat) (source : List Char) (hs : List (Nat × List Char))
    (st : ChunkStore) (idv : Nat) : ChunkStore × Nat :=
  hs.foldl
    (fun (acc : ChunkStore × Nat) (p : Nat × List Char) =>
      (chunkAdd acc.1 ⟨acc.2, p.1, docId, some p.2, source⟩, acc.2 + 1)) (st, idv)

/-- `GlobalFingerprintManager.add_fingerprints(doc_id, source, language, text,
simhash_sig, minhash_sig)`: one record per enabled store (one per chunk for
the chunk store), appended to the cache and persisted.  Fresh
`fingerprint_id`s are drawn from the `nextFpId` counter (`uuid4` in the
code). -/
def add_fingerprints (m : Manager) (docId : Nat) (source lang text : List Char)
    (simhashSig : Option Nat) : Manager :=
  let simStep : Option SimStore × Nat :=
    match m.simhash with
    | some st =>
      let sig := simhashSig.getD (compute_simhash m.pyHash text 2000)
      (some (simAdd st ⟨m.nextFpId, sig, docId, source⟩), m.nextFpId + 1)
    | none => (none, m.nextFpId)
  let minStep : Option MinStore × Nat :=
    match m.minhash with
    | some st => (some (minAdd st ⟨simStep.2, docId, source⟩), simStep.2 + 1)
    | none => (none, simStep.2)
  let chunkStep : Option ChunkStore × Nat :=
    match m.chunk with
    | some st =>
      let res := chunkAddAll docId source
        (compute_chunk_hashes m.sha text st.chunkSize st.chunkOverlap) st minStep.2
      (some res.1, res.2)
    | none => (none, minStep.2)
  { m with simhash := simStep.1, minhash := minStep.1, chunk := chunkStep.1,
           nextFpId := chunkStep.2 }

/-! ## Claim C7 -/

/-- C7: a `SimHashStore` with `max_hamming = k` into which a record with
signature `A` has been added returns a match (found, with that record among
the results) when queried with `B` iff the Hamming distance of `A` and `B` is
at most `k`, and the same with the roles of `A` and `B` exchanged. -/
theorem C7_simhash_hamming_threshold (k A B fp d : Nat) (s : List Char) :
    (((simQuery (simAdd ⟨k, [], []⟩ ⟨fp, A, d, s⟩) B).1 = true ∧
        (⟨fp, A, d, s⟩ : SimRec) ∈ (simQuery (simAdd ⟨k, [], []⟩ ⟨fp, A, d, s⟩) B).2) ↔
      hamming_distance A B ≤ k) ∧
    (((simQuery (simAdd ⟨k, [], []⟩ ⟨fp, B, d, s⟩) A).1 = true ∧
        (⟨fp, B, d, s⟩ : SimRec) ∈ (simQuery (simAdd ⟨k, [], []⟩ ⟨fp, B, d, s⟩) A).2) ↔
      hamming_distance A B ≤ k) := by
  have hc : hamming_distance B A = hamming_distance A B := hamming_distance_comm B A
  constructor
  · by_cases h : hamming_distance A B ≤ k
    · simp [simQuery, simMatches, simAdd, bucketAdd, assocSet, hc, h]
    · simp [simQuery, simMatches, simAdd, bucketAdd, assocSet, hc, h]
  · by_cases h : hamming_distance A B ≤ k
    · simp [simQuery, simMatches, simAdd, bucketAdd, assocSet, h]
    · simp [simQuery, simMatches, simAdd, bucketAdd, assocSet, h]

/-! ## Concrete managers for scenarios and counterexamples -/

/-- A stand-in for the interpreter's `hash` builtin in concrete scenarios
(the scenarios below always pass a precomputed signature, so its value is
never consulted). -/
def fnZero : List Char → Int := fun _ => 0

/-- A stand-in for the SHA-256 digest in concrete scenarios: an injective
positional encoding of the character list. -/
def chunkEnc (l : List Char) : Nat :=
  l.foldl (fun a c => a * 2000000 + c.toNat + 1) 0

def strBBBB : List Char := "bbbb".data
def text12 : List Char := "aaaabbbbcccc".data

/-- A manager with every store disabled and default flags, the base of the
concrete scenarios. -/
def mgrBase : Manager :=
  { pyHash := fnZero, sha := chunkEnc, simhash := none, minhash := none, chunk := none,
    simhash_drop_on_match := true, minhash_drop_on_match := true,
    chunk_drop_duplicate_chunks_only := true, source_priority := [],
    document_type_priority := [], source_to_document_type := [],
    metrics := emptyMetrics, nextFpId := 0 }

/-- SimHash-only manager whose store holds one record of source `"A"` (doc 7)
under signature 5, `max_hamming = 3`. -/
def mgrSim : Manager :=
  { mgrBase with simhash := some ⟨3, [(5, [⟨0, 5, 7, strA⟩])], []⟩ }

/-- SimHash-only manager with an empty store. -/
def mgrSimEmpty : Manager :=
  { mgrBase with simhash := some ⟨3, [], []⟩ }

/-- Chunk-only manager (`chunk_size = 4`, no overlap) whose store already
holds the digest of chunk `"bbbb"` under source `"A"`. -/
def mgrChunk : Manager :=
  { mgrBase with
      chunk := some ⟨4, 0, [(chunkEnc strBBBB, [⟨0, chunkEnc strBBBB, 7, some strOne, strA⟩])], []⟩ }

/-! ## Claim C6 -/

theorem qadChunkFinish_dup (m : Manager) (source : List Char) (ids : List Nat)
    (srcs2 : List (List Char)) (mt : Option (List Char)) (dup : List (List Char)) :
    (qadChunkFinish m source ids srcs2 mt dup).1.duplicate_chunk_ids = dup := by
  unfold qadChunkFinish
  split_ifs <;> rfl

theorem qadChunkFinish_link (m : Manager) (source : List Char) (ids : List Nat)
    (srcs2 : List (List Char)) (mt : Option (List Char)) (dup : List (List Char))
    (h : dup ≠ []) :
    (qadChunkFinish m source ids srcs2 mt dup).1.action = DedupAction.KEEP_LINK := by
  cases dup with
  | nil => exact absurd rfl h
  | cons a t =>
    unfold qadChunkFinish
    by_cases hf : m.chunk_drop_duplicate_chunks_only <;> simp [hf]

theorem qadChunkStage_link (m : Manager) (source text : List Char)
    (ch : Option (List (Nat × List Char))) (ids : List Nat) (srcs : List (List Char))
    (mt : Option (List Char))
    (h : (qadChunkStage m source text ch ids srcs mt).1.duplicate_chunk_ids ≠ []) :
    (qadChunkStage m source text ch ids srcs mt).1.action = DedupAction.KEEP_LINK := by
  simp only [qadChunkStage] at h ⊢
  rw [qadChunkFinish_dup] at h
  exact qadChunkFinish_link _ _ _ _ _ _ h

theorem qadMinStage_cases (m : Manager) (source lang text : List Char)
    (ch : Option (List (Nat × List Char))) (ids : List Nat) (srcs : List (List Char))
    (mt : Option (List Char)) :
    (∃ ids2 srcs2 mt2, qadMinStage m source lang text ch ids srcs mt =
        qadChunkStage m source text ch ids2 srcs2 mt2) ∨
    (qadMinStage m source lang text ch ids srcs mt).1.duplicate_chunk_ids = [] := by
  unfold qadMinStage
  rcases hmn : m.minhash with _ | st
  · exact Or.inl ⟨ids, srcs, mt, rfl⟩
  · by_cases hq : (minQuery st text).1 = true
    · by_cases hf : m.minhash_drop_on_match = true
      · by_cases hk : shouldKeepIncomingM m source
            (srcs ++ (minQuery st text).2.map fun r => r.source) = true
        · right; simp [hq, hf, hk]
        · right; simp [hq, hf, hk]
      · left
        refine ⟨ids ++ (minQuery st text).2.map fun r => r.docId,
               srcs ++ (minQuery st text).2.map fun r => r.source, some minhashS, ?_⟩
        simp [hq, Bool.eq_false_iff.2 hf]
    · left
      exact ⟨ids, srcs, mt, by simp [hq]⟩

theorem query_and_decide_cases (m : Manager) (docId : Nat) (source lang text : List Char)
    (sig : Option Nat) (ch : Option (List (Nat × List Char))) :
    (∃ ids srcs mt, query_and_decide m docId source lang text sig ch =
        qadMinStage m source lang text ch ids srcs mt) ∨
    (query_and_decide m docId source lang text sig ch).1.duplicate_chunk_ids = [] := by
  unfold query_and_decide
  rcases hsm : m.simhash with _ | st
  · exact Or.inl ⟨[], [], none, rfl⟩
  · by_cases hq : (simQuery st (sig.getD (compute_simhash m.pyHash text 2000))).1 = true
    · by_cases hf : m.simhash_drop_on_match = true
      · by_cases hk : shouldKeepIncomingM m source
            ((simQuery st (sig.getD (compute_simhash m.pyHash text 2000))).2.map
              fun r => r.source) = true
        · right; simp [hq, hf, hk]
        · right; simp [hq, hf, hk]
      · left
        refine ⟨(simQuery st (sig.getD (compute_simhash m.pyHash text 2000))).2.map
                  (fun r => r.docId),
               (simQuery st (sig.getD (compute_simhash m.pyHash text 2000))).2.map
                  (fun r => r.source), some simhashS, ?_⟩
        simp [hq, Bool.eq_false_iff.2 hf]
    · left
      exact ⟨[], [], none, by simp [hq]⟩

/-- C6: in `query_and_decide`, chunk-level matches never yield `DROP`: every
decision that carries at least one duplicated chunk id has verdict
`KEEP_LINK`; and the spec's scenario — a 3-chunk document whose second chunk
(0-indexed id "1") was previously stored under a different source — yields
`KEEP_LINK` with `duplicate_chunk_ids = ["1"]`, the stored source reported
and the chunk hit counted. -/
theorem C6_chunk_matches_never_drop :
    (∀ (m : Manager) (docId : Nat) (source lang text : List Char)
        (sig : Option Nat) (ch : Option (List (Nat × List Char))),
        (query_and_decide m docId source lang text sig ch).1.duplicate_chunk_ids ≠ [] →
        (query_and_decide m docId source lang text sig ch).1.action =
          DedupAction.KEEP_LINK) ∧
    query_and_decide mgrChunk 9 strB strEn text12 none none =
      (⟨DedupAction.KEEP_LINK, some chunkHashS, [], [strA], [strOne], reasonChunkLink⟩,
       { emptyMetrics with chunk_hash_hits := 1 }) := by
  constructor
  · intro m docId source lang text sig ch h
    rcases query_and_decide_cases m docId source lang text sig ch with ⟨ids, srcs, mt, he⟩ | hnil
    · rw [he] at h ⊢
      rcases qadMinStage_cases m source lang text ch ids srcs mt with ⟨i2, s2, m2, he2⟩ | hnil2
      · rw [he2] at h ⊢
        exact qadChunkStage_link _ _ _ _ _ _ _ h
      · exact absurd hnil2 h
    · exact absurd hnil h
  · decide

/-! ## Claim C2 -/

theorem recordDecision_cross (ms : Metrics) (source : List Char) (d k : Bool)
    (mt : List Char) :
    (record_decision ms source d k mt).cross_dataset_collisions =
      ms.cross_dataset_collisions := by
  unfold record_decision
  split_ifs <;> rfl

/-- The SimHash drop branch of `query_and_decide`, fully evaluated. -/
theorem qad_simhash_drop (m : Manager) (st : SimStore) (docId : Nat)
    (source lang text : List Char) (sig : Nat) (ch : Option (List (Nat × List Char)))
    (hsim : m.simhash = some st) (hq : (simQuery st sig).1 = true)
    (hflag : m.simhash_drop_on_match = true)
    (hkeep : shouldKeepIncomingM m source ((simQuery st sig).2.map fun r => r.source) = false) :
    query_and_decide m docId source lang text (some sig) ch =
      (⟨DedupAction.DROP, some simhashS, (simQuery st sig).2.map fun r => r.docId,
        (simQuery st sig).2.map fun r => r.source, [], reasonSimDrop⟩,
       if 1 < (((simQuery st sig).2.map fun r => r.source).dedup).length then
         { record_decision m.metrics source true false simhashS with
             cross_dataset_collisions :=
               (record_decision m.metrics source true false simhashS).cross_dataset_collisions
                 + 1 }
       else record_decision m.metrics source true false simhashS) := by
  unfold query_and_decide
  rw [hsim]
  simp [hq, hflag, hkeep]

/-- The MinHash drop branch of `query_and_decide` (SimHash store disabled),
fully evaluated. -/
theorem qad_minhash_drop (m : Manager) (st : MinStore) (docId : Nat)
    (source lang text : List Char) (sigo : Option Nat)
    (ch : Option (List (Nat × List Char)))
    (hsim : m.simhash = none) (hmin : m.minhash = some st)
    (hq : (minQuery st text).1 = true)
    (hflag : m.minhash_drop_on_match = true)
    (hkeep : shouldKeepIncomingM m source ((minQuery st text).2.map fun r => r.source) = false) :
    query_and_decide m docId source lang text sigo ch =
      (⟨DedupAction.DROP, some minhashS, (minQuery st text).2.map fun r => r.docId,
        (minQuery st text).2.map fun r => r.source, [], reasonMinDrop⟩,
       if 1 < (((minQuery st text).2.map fun r => r.source).dedup).length then
         { record_decision m.metrics source true false minhashS with
             cross_dataset_collisions :=
               (record_decision m.metrics source true false minhashS).cross_dataset_collisions
                 + 1 }
       else record_decision m.metrics source true false minhashS) := by
  unfold query_and_decide qadMinStage
  rw [hsim, hmin]
  simp [hq, hflag, hkeep]

/-- C2 (amended): whenever the incoming document loses the priority
comparison after a SimHash or MinHash match, the verdict is `DROP`, and a
cross-dataset collision is recorded exactly when the matching records span
more than one distinct source — not when they merely differ from the
incoming document's source. -/
theorem C2_lose_drops_and_collision_on_multisource :
    (∀ (m : Manager) (st : SimStore) (docId : Nat) (source lang text : List Char)
        (sig : Nat) (ch : Option (List (Nat × List Char))),
        m.simhash = some st →
        (simQuery st sig).1 = true →
        m.simhash_drop_on_match = true →
        shouldKeepIncomingM m source ((simQuery st sig).2.map fun r => r.source) = false →
        (query_and_decide m docId source lang text (some sig) ch).1.action =
            DedupAction.DROP ∧
        (query_and_decide m docId source lang text (some sig) ch).2.cross_dataset_collisions =
          m.metrics.cross_dataset_collisions +
            (if 1 < (((simQuery st sig).2.map fun r => r.source).dedup).length
             then 1 else 0)) ∧
    (∀ (m : Manager) (st : MinStore) (docId : Nat) (source lang text : List Char)
        (sigo : Option Nat) (ch : Option (List (Nat × List Char))),
        m.simhash = none →
        m.minhash = some st →
        (minQuery st text).1 = true →
        m.minhash_drop_on_match = true →
        shouldKeepIncomingM m source ((minQuery st text).2.map fun r => r.source) = false →
        (query_and_decide m docId source lang text sigo ch).1.action = DedupAction.DROP ∧
        (query_and_decide m docId source lang text sigo ch).2.cross_dataset_collisions =
          m.metrics.cross_dataset_collisions +
            (if 1 < (((minQuery st text).2.map fun r => r.source).dedup).length
             then 1 else 0)) := by
  constructor
  · intro m st docId source lang text sig ch hsim hq hflag hkeep
    rw [qad_simhash_drop m st docId source lang text sig ch hsim hq hflag hkeep]
    refine ⟨rfl, ?_⟩
    split_ifs with hd
    · simp [recordDecision_cross]
    · simp [recordDecision_cross]
  · intro m st docId source lang text sigo ch hsim hmin hq hflag hkeep
    rw [qad_minhash_drop m st docId source lang text sigo ch hsim hmin hq hflag hkeep]
    refine ⟨rfl, ?_⟩
    split_ifs with hd
    · simp [recordDecision_cross]
    · simp [recordDecision_cross]

/-- C2 counterexample: the incoming source `"B"` loses against one single
match from the different source `"A"`; the verdict is `DROP`, yet no
cross-dataset collision is recorded (the code counts one only when the
matching records themselves span more than one distinct source). -/
theorem C2_differing_source_no_collision_counterexample :
    (query_and_decide mgrSim 9 strB strEn strX (some 5) none).1.action =
        DedupAction.DROP ∧
    (query_and_decide mgrSim 9 strB strEn strX (some 5) none).1.existing_sources = [strA] ∧
    strA ≠ strB ∧
    (query_and_decide mgrSim 9 strB strEn strX (some 5) none).2.cross_dataset_collisions
      = 0 := by
  decide

/-! ## Claim C3 -/

/-- Total number of records in the SimHash in-memory index. -/
def simRecordTotal (st : SimStore) : Nat := (st.cache.map fun p => p.2.length).sum

/-- Total number of records in the chunk-hash in-memory index. -/
def chunkRecordTotal (st : ChunkStore) : Nat := (st.cache.map fun p => p.2.length).sum

def simCountOf (m : Manager) : Nat :=
  match m.simhash with
  | some st => simRecordTotal st
  | none => 0

def chunkCountOf (m : Manager) : Nat :=
  match m.chunk with
  | some st => chunkRecordTotal st
  | none => 0

def simFileKeysOf (m : Manager) : List Nat :=
  match m.simhash with
  | some st => st.files.map Prod.fst
  | none => []

def chunkFileKeysOf (m : Manager) : List Nat :=
  match m.chunk with
  | some st => st.files.map Prod.fst
  | none => []

/-- How many chunk records one `add_fingerprints` call creates. -/
def chunkHashesPerCall (m : Manager) (text : List Char) : Nat :=
  match m.chunk with
  | some st => (compute_chunk_hashes m.sha text st.chunkSize st.chunkOverlap).length
  | none => 0

theorem bucketAdd_total {α : Type} (k : Nat) (r : α) :
    ∀ c : List (Nat × List α),
      ((bucketAdd c k r).map fun p => p.2.length).sum = ((c.map fun p => p.2.length)).sum + 1 := by
  intro c
  induction c with
  | nil => simp [bucketAdd]
  | cons p rest ih =>
    rcases p with ⟨a, rs⟩
    by_cases h : a = k
    · simp [bucketAdd, h]; omega
    · simp [bucketAdd, h, ih]; omega

theorem mem_assocSet_keys {α : Type} (k : Nat) (v : α) :
    ∀ (fs : List (Nat × α)) (k' : Nat),
      k' ∈ (assocSet fs k v).map Prod.fst ↔ k' ∈ fs.map Prod.fst ∨ k' = k := by
  intro fs
  induction fs with
  | nil => intro k'; simp [assocSet]
  | cons p rest ih =>
    intro k'
    rcases p with ⟨a, b⟩
    by_cases h : a = k
    · subst h; simp [assocSet]; tauto
    · simp [assocSet, h, ih]; tauto

theorem assocSet_keys_of_mem {α : Type} (k : Nat) (v : α) :
    ∀ fs : List (Nat × α),
      k ∈ fs.map Prod.fst → (assocSet fs k v).map Prod.fst = fs.map Prod.fst := by
  intro fs
  induction fs with
  | nil => simp
  | cons p rest ih =>
    rcases p with ⟨a, b⟩
    intro hk
    by_cases h : a = k
    · simp [assocSet, h]
    · rw [List.map_cons] at hk
      rcases List.mem_cons.1 hk with h1 | h1
      · exact absurd h1.symm h
      · simp only [assocSet, if_neg h, List.map_cons]
        rw [ih h1]

theorem chunkAddAll_nil (docId : Nat) (source : List Char) (st : ChunkStore) (idv : Nat) :
    chunkAddAll docId source [] st idv = (st, idv) := rfl

theorem chunkAddAll_cons (docId : Nat) (source : List Char) (p : Nat × List Char)
    (rest : List (Nat × List Char)) (st : ChunkStore) (idv : Nat) :
    chunkAddAll docId source (p :: rest) st idv =
      chunkAddAll docId source rest (chunkAdd st ⟨idv, p.1, docId, some p.2, source⟩)
        (idv + 1) := rfl

theorem chunkAddAll_params (docId : Nat) (source : List Char) :
    ∀ (hs : List (Nat × List Char)) (st : ChunkStore) (idv : Nat),
      (chunkAddAll docId source hs st idv).1.chunkSize = st.chunkSize ∧
      (chunkAddAll docId source hs st idv).1.chunkOverlap = st.chunkOverlap := by
  intro hs
  induction hs with
  | nil => intro st idv; exact ⟨rfl, rfl⟩
  | cons p rest ih =>
    intro st idv
    simpa [chunkAddAll] using ih (chunkAdd st ⟨idv, p.1, docId, some p.2, source⟩) (idv + 1)

theorem chunkAddAll_total (docId : Nat) (source : List Char) :
    ∀ (hs : List (Nat × List Char)) (st : ChunkStore) (idv : Nat),
      chunkRecordTotal (chunkAddAll docId source hs st idv).1 =
        chunkRecordTotal st + hs.length := by
  intro hs
  induction hs with
  | nil => intro st idv; simp [chunkAddAll]
  | cons p rest ih =>
    intro st idv
    have := ih (chunkAdd st ⟨idv, p.1, docId, some p.2, source⟩) (idv + 1)
    have htot : chunkRecordTotal (chunkAdd st ⟨idv, p.1, docId, some p.2, source⟩) =
        chunkRecordTotal st + 1 := bucketAdd_total _ _ st.cache
    simp only [chunkAddAll, List.foldl_cons] at this ⊢
    rw [this, htot]
    simp [Nat.add_assoc, Nat.add_comm 1]

theorem chunkAddAll_keys_superset (docId : Nat) (source : List Char) :
    ∀ (hs : List (Nat × List Char)) (st : ChunkStore) (idv k : Nat),
      k ∈ st.files.map Prod.fst →
      k ∈ (chunkAddAll docId source hs st idv).1.files.map Prod.fst := by
  intro hs
  induction hs with
  | nil => intro st idv k hk; simpa [chunkAddAll] using hk
  | cons p rest ih =>
    intro st idv k hk
    simp only [chunkAddAll, List.foldl_cons]
    exact ih (chunkAdd st ⟨idv, p.1, docId, some p.2, source⟩) (idv + 1) k
      ((mem_assocSet_keys _ _ st.files k).2 (Or.inl hk))

theorem chunkAddAll_keys_cover (docId : Nat) (source : List Char) :
    ∀ (hs : List (Nat × List Char)) (st : ChunkStore) (idv k : Nat),
      k ∈ hs.map Prod.fst →
      k ∈ (chunkAddAll docId source hs st idv).1.files.map Prod.fst := by
  intro hs
  induction hs with
  | nil => intro st idv k hk; simp at hk
  | cons p rest ih =>
    intro st idv k hk
    rw [chunkAddAll_cons]
    rw [List.map_cons] at hk
    rcases List.mem_cons.1 hk with h1 | h1
    · exact chunkAddAll_keys_superset docId source rest _ (idv + 1) k
        ((mem_assocSet_keys _ _ st.files k).2 (Or.inr h1))
    · exact ih (chunkAdd st ⟨idv, p.1, docId, some p.2, source⟩) (idv + 1) k h1

theorem chunkAddAll_keys_stable (docId : Nat) (source : List Char) :
    ∀ (hs : List (Nat × List Char)) (st : ChunkStore) (idv : Nat),
      (∀ k ∈ hs.map Prod.fst, k ∈ st.files.map Prod.fst) →
      (chunkAddAll docId source hs st idv).1.files.map Prod.fst = st.files.map Prod.fst := by
  intro hs
  induction hs with
  | nil => intro st idv _; rfl
  | cons p rest ih =>
    intro st idv hall
    have hkeys : (chunkAdd st ⟨idv, p.1, docId, some p.2, source⟩).files.map Prod.fst =
        st.files.map Prod.fst :=
      assocSet_keys_of_mem _ _ st.files (hall p.1 (by simp))
    rw [chunkAddAll_cons,
      ih _ (idv + 1) (fun k hk => by rw [hkeys]; exact hall k (by simp [hk])), hkeys]

theorem add_fingerprints_pyHash (m : Manager) (docId : Nat) (source lang text : List Char)
    (sigo : Option Nat) :
    (add_fingerprints m docId source lang text sigo).pyHash = m.pyHash := rfl

theorem add_fingerprints_sha (m : Manager) (docId : Nat) (source lang text : List Char)
    (sigo : Option Nat) :
    (add_fingerprints m docId source lang text sigo).sha = m.sha := rfl

theorem add_fingerprints_simhash (m : Manager) (docId : Nat) (source lang text : List Char)
    (sigo : Option Nat) (st : SimStore) (hsim : m.simhash = some st) :
    (add_fingerprints m docId source lang text sigo).simhash =
      some (simAdd st ⟨m.nextFpId, sigo.getD (compute_simhash m.pyHash text 2000),
        docId, source⟩) := by
  simp [add_fingerprints, hsim]

theorem add_fingerprints_simhash_none (m : Manager) (docId : Nat)
    (source lang text : List Char) (sigo : Option Nat) (hsim : m.simhash = none) :
    (add_fingerprints m docId source lang text sigo).simhash = none := by
  simp [add_fingerprints, hsim]

theorem add_fingerprints_chunk (m : Manager) (docId : Nat) (source lang text : List Char)
    (sigo : Option Nat) (st : ChunkStore) (hch : m.chunk = some st) :
    ∃ idv, (add_fingerprints m docId source lang text sigo).chunk =
      some (chunkAddAll docId source
        (compute_chunk_hashes m.sha text st.chunkSize st.chunkOverlap) st idv).1 := by
  rcases hsim : m.simhash with _ | sst <;> rcases hmin : m.minhash with _ | mst
  · exact ⟨m.nextFpId, by simp [add_fingerprints, hsim, hmin, hch]⟩
  · exact ⟨m.nextFpId + 1, by simp [add_fingerprints, hsim, hmin, hch]⟩
  · exact ⟨m.nextFpId + 1, by simp [add_fingerprints, hsim, hmin, hch]⟩
  · exact ⟨m.nextFpId + 1 + 1, by simp [add_fingerprints, hsim, hmin, hch]⟩

theorem add_fingerprints_chunk_none (m : Manager) (docId : Nat)
    (source lang text : List Char) (sigo : Option Nat) (hch : m.chunk = none) :
    (add_fingerprints m docId source lang text sigo).chunk = none := by
  simp [add_fingerprints, hch]

theorem addF_simCount (m : Manager) (docId : Nat) (source lang text : List Char)
    (sigo : Option Nat) :
    simCountOf (add_fingerprints m docId source lang text sigo) =
      simCountOf m + (if m.simhash.isSome then 1 else 0) := by
  rcases hsim : m.simhash with _ | st
  · rw [simCountOf, add_fingerprints_simhash_none m docId source lang text sigo hsim]
    simp [simCountOf, hsim]
  · rw [simCountOf, add_fingerprints_simhash m docId source lang text sigo st hsim]
    simp only [simAdd, hsim, Option.isSome_some, if_true]
    have := bucketAdd_total
      (sigo.getD (compute_simhash m.pyHash text 2000))
      (⟨m.nextFpId, sigo.getD (compute_simhash m.pyHash text 2000), docId, source⟩ : SimRec)
      st.cache
    simp [simCountOf, hsim, simRecordTotal, this]

theorem addF_sim_isSome (m : Manager) (docId : Nat) (source lang text : List Char)
    (sigo : Option Nat) :
    (add_fingerprints m docId source lang text sigo).simhash.isSome = m.simhash.isSome := by
  rcases hsim : m.simhash with _ | st
  · rw [add_fingerprints_simhash_none m docId source lang text sigo hsim]
  · rw [add_fingerprints_simhash m docId source lang text sigo st hsim]
    rfl

theorem addF_chunkCount (m : Manager) (docId : Nat) (source lang text : List Char)
    (sigo : Option Nat) :
    chunkCountOf (add_fingerprints m docId source lang text sigo) =
      chunkCountOf m + chunkHashesPerCall m text := by
  rcases hch : m.chunk with _ | st
  · rw [chunkCountOf, add_fingerprints_chunk_none m docId source lang text sigo hch]
    simp [chunkCountOf, chunkHashesPerCall, hch]
  · rcases add_fingerprints_chunk m docId source lang text sigo st hch with ⟨idv, hc⟩
    rw [chunkCountOf, hc]
    simp only [chunkCountOf, chunkHashesPerCall, hch]
    exact chunkAddAll_total docId source _ st idv

theorem addF_chunkPerCall (m : Manager) (docId : Nat) (source lang text : List Char)
    (sigo : Option Nat) :
    chunkHashesPerCall (add_fingerprints m docId source lang text sigo) text =
      chunkHashesPerCall m text := by
  rcases hch : m.chunk with _ | st
  · rw [chunkHashesPerCall, add_fingerprints_chunk_none m docId source lang text sigo hch]
    simp [chunkHashesPerCall, hch]
  · rcases add_fingerprints_chunk m docId source lang text sigo st hch with ⟨idv, hc⟩
    rw [chunkHashesPerCall, hc]
    simp only [chunkHashesPerCall, hch, add_fingerprints_sha]
    rw [(chunkAddAll_params docId source _ st idv).1,
      (chunkAddAll_params docId source _ st idv).2]

theorem addF_simKeys_stable (m : Manager) (docId : Nat) (source lang text : List Char)
    (sigo : Option Nat) :
    simFileKeysOf (add_fingerprints (add_fingerprints m docId source lang text sigo)
        docId source lang text sigo) =
      simFileKeysOf (add_fingerprints m docId source lang text sigo) := by
  rcases hsim : m.simhash with _ | st
  · have h1 := add_fingerprints_simhash_none m docId source lang text sigo hsim
    have h2 := add_fingerprints_simhash_none
      (add_fingerprints m docId source lang text sigo) docId source lang text sigo h1
    rw [simFileKeysOf, simFileKeysOf, h1, h2]
  · have h1 := add_fingerprints_simhash m docId source lang text sigo st hsim
    have h2 := add_fingerprints_simhash
      (add_fingerprints m docId source lang text sigo) docId source lang text sigo _ h1
    rw [simFileKeysOf, simFileKeysOf, h1, h2]
    simp only [add_fingerprints_pyHash, simAdd]
    exact assocSet_keys_of_mem _ _ _
      ((mem_assocSet_keys _ _ st.files _).2 (Or.inr rfl))

theorem addF_chunkKeys_stable (m : Manager) (docId : Nat) (source lang text : List Char)
    (sigo : Option Nat) :
    chunkFileKeysOf (add_fingerprints (add_fingerprints m docId source lang text sigo)
        docId source lang text sigo) =
      chunkFileKeysOf (add_fingerprints m docId source lang text sigo) := by
  rcases hch : m.chunk with _ | st
  · have h1 := add_fingerprints_chunk_none m docId source lang text sigo hch
    have h2 := add_fingerprints_chunk_none
      (add_fingerprints m docId source lang text sigo) docId source lang text sigo h1
    rw [chunkFileKeysOf, chunkFileKeysOf, h1, h2]
  · rcases add_fingerprints_chunk m docId source lang text sigo st hch with ⟨idv, h1⟩
    rcases add_fingerprints_chunk (add_fingerprints m docId source lang text sigo)
      docId source lang text sigo _ h1 with ⟨idv2, h2⟩
    rw [chunkFileKeysOf, chunkFileKeysOf, h1, h2]
    simp only [add_fingerprints_sha,
      (chunkAddAll_params docId source _ st idv).1,
      (chunkAddAll_params docId source _ st idv).2]
    exact chunkAddAll_keys_stable docId source _ _ idv2
      (fun k hk => chunkAddAll_keys_cover docId source _ st idv k hk)

/-- C3 (amended): `add_fingerprints` is *not* idempotent on the in-memory
queryable state: each call appends one further record to the SimHash index
(when enabled) and one per chunk to the chunk index, so a second identical
call doubles the records for that document; only the set of persisted file
keys is left unchanged by the repeated call (the same per-signature and
per-chunk-digest files are overwritten). -/
theorem C3_add_fingerprints_appends (m : Manager) (docId : Nat)
    (source lang text : List Char) (sigo : Option Nat) :
    simCountOf (add_fingerprints m docId source lang text sigo) =
        simCountOf m + (if m.simhash.isSome then 1 else 0) ∧
    simCountOf (add_fingerprints (add_fingerprints m docId source lang text sigo)
          docId source lang text sigo) =
        simCountOf (add_fingerprints m docId source lang text sigo) +
          (if m.simhash.isSome then 1 else 0) ∧
    chunkCountOf (add_fingerprints m docId source lang text sigo) =
        chunkCountOf m + chunkHashesPerCall m text ∧
    chunkCountOf (add_fingerprints (add_fingerprints m docId source lang text sigo)
          docId source lang text sigo) =
        chunkCountOf (add_fingerprints m docId source lang text sigo) +
          chunkHashesPerCall m text ∧
    simFileKeysOf (add_fingerprints (add_fingerprints m docId source lang text sigo)
          docId source lang text sigo) =
        simFileKeysOf (add_fingerprints m docId source lang text sigo) ∧
    chunkFileKeysOf (add_fingerprints (add_fingerprints m docId source lang text sigo)
          docId source lang text sigo) =
        chunkFileKeysOf (add_fingerprints m docId source lang text sigo) := by
  refine ⟨addF_simCount m docId source lang text sigo, ?_,
    addF_chunkCount m docId source lang text sigo, ?_,
    addF_simKeys_stable m docId source lang text sigo,
    addF_chunkKeys_stable m docId source lang text sigo⟩
  · rw [addF_simCount (add_fingerprints m docId source lang text sigo) docId source lang text
      sigo, addF_sim_isSome m docId source lang text sigo]
  · rw [addF_chunkCount (add_fingerprints m docId source lang text sigo) docId source lang text
      sigo, addF_chunkPerCall m docId source lang text sigo]

/-- C3 counterexample: on a SimHash-only manager with an empty store, two
identical `add_fingerprints` calls (same `doc_id`, source, language, text)
leave **two** records in the queryable index, not the one record the claim's
idempotence requires. -/
theorem C3_double_add_counterexample :
    simCountOf (add_fingerprints (add_fingerprints mgrSimEmpty 7 strA strEn strX (some 5))
        7 strA strEn strX (some 5)) = 2 ∧
    simCountOf (add_fingerprints mgrSimEmpty 7 strA strEn strX (some 5)) = 1 ∧
    ¬ simCountOf (add_fingerprints (add_fingerprints mgrSimEmpty 7 strA strEn strX (some 5))
        7 strA strEn strX (some 5)) =
      simCountOf (add_fingerprints mgrSimEmpty 7 strA strEn strX (some 5)) := by
  refine ⟨by decide, by decide, by decide⟩

/-! ## Checkpoint store (`checkpoints/store.py`)

The checkpoint JSON schema of the module docstring, as a structure; a file on
disk either parses to a state or is unparsable (zero-length files do not
parse as JSON).  `CkptFS` is the checkpoint directory: the live checkpoint
`{run_id}.json` plus the other named checkpoint files. -/

structure SourceEntry where
  processed_docs : Nat
  shard_idx : Nat
deriving DecidableEq

structure CkptState where
  run_id : Option (List Char)
  updated_at_ms : Option Nat
  start_time_ms : Option Nat
  resume_mode : Option (List Char)
  checkpoint_id : Option (List Char)
  sources : List (List Char × SourceEntry)
deriving DecidableEq

inductive CkptFile
  | parsed (s : CkptState)
  | unparsable
deriving DecidableEq

structure CkptFS where
  live : Option CkptFile
  named : List (List Char × CkptFile)
deriving DecidableEq

def autoS : List Char := "auto".data
def beginningS : List Char := "beginning".data
def ignoreS : List Char := "ignore".data
def checkpointS : List Char := "checkpoint".data

def strAssocGet {α : Type} (m : List (List Char × α)) (k : List Char) : Option α :=
  match m with
  | [] => none
  | (a, b) :: rest => if a = k then some b else strAssocGet rest k

/-- The `glob(f"{checkpoint_id}*.json")` fallback: first file whose name has
the id as a prefix (glob order modelled as directory order). -/
def findByPrefixKey {α : Type} (m : List (List Char × α)) (cid : List Char) : Option α :=
  match m with
  | [] => none
  | (a, b) :: rest => if cid.isPrefixOf a then some b else findByPrefixKey rest cid

/-- `CheckpointStore._find_checkpoint(checkpoint_id)`: exact name first, then
prefix match. -/
def findCkpt (named : List (List Char × CkptFile)) (cid : List Char) : Option CkptFile :=
  match strAssocGet named cid with
  | some f => some f
  | none => findByPrefixKey named cid

/-- `{"sources": {}, "resume_mode": resume_mode}`. -/
def emptyState (mode : List Char) : CkptState :=
  ⟨none, none, none, some mode, none, []⟩

/-- Python truthiness of the optional `checkpoint_id` argument. -/
def cidTruthy : Option (List Char) → Bool
  | some c => !c.isEmpty
  | none => false

/-- Reading the live checkpoint (shared by the auto path and the
checkpoint-mode fallback): `json.load` of an unparsable file raises — there
is no `try`/`except` around it — modelled as `Except.error`. -/
def loadLive (fs : CkptFS) (mode : List Char) : Except Unit CkptState :=
  match fs.live with
  | some (CkptFile.parsed s) => Except.ok { s with resume_mode := some mode }
  | some CkptFile.unparsable => Except.error ()
  | none => Except.ok (emptyState mode)

/-- `CheckpointStore.load(resume_mode, checkpoint_id)`. -/
def ckptLoad (fs : CkptFS) (mode : List Char) (cid : Option (List Char)) :
    Except Unit CkptState :=
  if mode = beginningS ∨ mode = ignoreS then Except.ok (emptyState mode)
  else if mode = checkpointS ∧ cidTruthy cid = true then
    match findCkpt fs.named (cid.getD []) with
    | some (CkptFile.parsed s) =>
        Except.ok { s with resume_mode := some mode, checkpoint_id := cid }
    | some CkptFile.unparsable => Except.error ()
    | none => loadLive fs mode
  else loadLive fs mode

/-- `CheckpointStore.save(state)`: set `updated_at_ms`, backfill `run_id`,
write to a temporary file and atomically replace the live checkpoint.
Returns the new directory and the state as written. -/
def ckptSave (fs : CkptFS) (storeRunId : List Char) (state : CkptState) (now : Nat) :
    CkptFS × CkptState :=
  let st := { state with
      updated_at_ms := some now,
      run_id := some (state.run_id.getD storeRunId) }
  ({ fs with live := some (CkptFile.parsed st) }, st)

/-! ## Fingerprint store loading (`SimHashStore._load`, `ChunkHashStore._load`) -/

/-- The `for f in list_files` loop of `SimHashStore._load`: parse every
persisted file, skip the ones that fail to parse (`except Exception:
continue`, covering zero-length and corrupt JSON, modelled as `none`), and
rebuild the cache with `setdefault(sig, []).append(rec)`. -/
def simLoadFrom (cache : List (Nat × List SimRec)) :
    List (Option SimRec) → List (Nat × List SimRec)
  | [] => cache
  | some r :: rest => simLoadFrom (bucketAdd cache r.value r) rest
  | none :: rest => simLoadFrom cache rest

/-- `SimHashStore._load` starting from the empty cache. -/
def simLoadCache (files : List (Option SimRec)) : List (Nat × List SimRec) :=
  simLoadFrom [] files

/-- `ChunkHashStore._load`, same shape as `SimHashStore._load`. -/
def chunkLoadFrom (cache : List (Nat × List ChunkRec)) :
    List (Option ChunkRec) → List (Nat × List ChunkRec)
  | [] => cache
  | some r :: rest => chunkLoadFrom (bucketAdd cache r.value r) rest
  | none :: rest => chunkLoadFrom cache rest

def chunkLoadCache (files : List (Option ChunkRec)) : List (Nat × List ChunkRec) :=
  chunkLoadFrom [] files

/-! ## Claims C8 and C9 -/

theorem simLoadFrom_skips :
    ∀ (files : List (Option SimRec)) (cache : List (Nat × List SimRec)),
      simLoadFrom cache files = simLoadFrom cache ((files.filterMap id).map some) := by
  intro files
  induction files with
  | nil => intro cache; rfl
  | cons f rest ih =>
    intro cache
    cases f with
    | none => simpa [simLoadFrom] using ih cache
    | some r => simpa [simLoadFrom] using ih (bucketAdd cache r.value r)

theorem chunkLoadFrom_skips :
    ∀ (files : List (Option ChunkRec)) (cache : List (Nat × List ChunkRec)),
      chunkLoadFrom cache files = chunkLoadFrom cache ((files.filterMap id).map some) := by
  intro files
  induction files with
  | nil => intro cache; rfl
  | cons f rest ih =>
    intro cache
    cases f with
    | none => simpa [chunkLoadFrom] using ih cache
    | some r => simpa [chunkLoadFrom] using ih (bucketAdd cache r.value r)

/-- C8 (amended): an unparsable (or zero-length) persisted **fingerprint**
file is treated as absent — the store load skips it and rebuilds exactly the
state of the parsable files, never raising — and `CheckpointStore.load`
never raises in `beginning`/`ignore` modes or when the live checkpoint is
parsable or absent; but an unparsable live checkpoint file in `auto` mode is
**not** treated as absent: `json.load` raises to the caller. -/
theorem C8_corrupt_state_handling :
    (∀ files : List (Option SimRec),
        simLoadCache files = simLoadCache ((files.filterMap id).map some)) ∧
    (∀ files : List (Option ChunkRec),
        chunkLoadCache files = chunkLoadCache ((files.filterMap id).map some)) ∧
    (∀ (fs : CkptFS) (cid : Option (List Char)),
        ckptLoad fs beginningS cid = Except.ok (emptyState beginningS) ∧
        ckptLoad fs ignoreS cid = Except.ok (emptyState ignoreS)) ∧
    (∀ s : CkptState,
        ckptLoad ⟨some (CkptFile.parsed s), []⟩ autoS none =
          Except.ok { s with resume_mode := some autoS }) ∧
    (∀ named : List (List Char × CkptFile),
        ckptLoad ⟨none, named⟩ autoS none = Except.ok (emptyState autoS)) ∧
    (∀ named : List (List Char × CkptFile),
        ckptLoad ⟨some CkptFile.unparsable, named⟩ autoS none = Except.error ()) := by
  refine ⟨fun files => simLoadFrom_skips files [],
         fun files => chunkLoadFrom_skips files [],
         ?_, ?_, ?_, ?_⟩
  · intro fs cid
    constructor
    · rw [ckptLoad, if_pos (Or.inl rfl)]
    · rw [ckptLoad, if_pos (Or.inr rfl)]
  · intro s
    rw [ckptLoad, if_neg (by decide), if_neg (by simp [autoS, checkpointS])]
    rfl
  · intro named
    rw [ckptLoad, if_neg (by decide), if_neg (by simp [autoS, checkpointS])]
    rfl
  · intro named
    rw [ckptLoad, if_neg (by decide), if_neg (by simp [autoS, checkpointS])]
    rfl

/-- C8 counterexample: an unparsable live checkpoint file under resume mode
`auto` makes `CheckpointStore.load` raise (there is no `try`/`except` around
`json.load`), instead of restarting from the empty state as the claim says. -/
theorem C8_unparsable_checkpoint_raises :
    ckptLoad ⟨some CkptFile.unparsable, []⟩ autoS none = Except.error () ∧
    ckptLoad ⟨some CkptFile.unparsable, []⟩ autoS none ≠
      Except.ok (emptyState autoS) := by
  constructor
  · rfl
  · intro h
    exact Except.noConfusion ((rfl : ckptLoad ⟨some CkptFile.unparsable, []⟩ autoS none =
      Except.error ()) ▸ h)

/-- C9: `save(state)` followed immediately by `load(resume_mode="auto")` on
the same store (the state carrying its run id and resume mode `auto`, as the
round-trip property reads) returns the state equal to the saved one, modulo
the updated timestamp field. -/
theorem C9_save_then_load_roundtrip (fs : CkptFS) (storeRunId : List Char)
    (state : CkptState) (now : Nat) (rid : List Char)
    (hmode : state.resume_mode = some autoS) (hrid : state.run_id = some rid) :
    ckptLoad (ckptSave fs storeRunId state now).1 autoS none =
      Except.ok { state with updated_at_ms := some now } := by
  rw [ckptLoad, if_neg (by decide), if_neg (by simp [autoS, checkpointS])]
  unfold ckptSave loadLive
  simp only [hrid, Option.getD_some]
  cases state
  simp_all

/-- C9 witness: the round trip at a concrete state. -/
theorem C9_roundtrip_witness :
    ckptLoad (ckptSave ⟨none, []⟩ strA ⟨some strA, some 3, some 2, some autoS, none, []⟩ 44).1
        autoS none =
      Except.ok ⟨some strA, some 44, some 2, some autoS, none, []⟩ :=
  C9_save_then_load_roundtrip ⟨none, []⟩ strA ⟨some strA, some 3, some 2, some autoS, none, []⟩
    44 strA rfl rfl

/-! ## Local pipeline driver (`pipeline/build.py`, per-source loop of `build_local`)

Documents of one source are numbered from 0; `outcome i = true` when the
stage chain accepts document `i`.  Fingerprints are persisted synchronously
inside the dedup stage (`add_fingerprints` writes and flushes every record
before `apply` returns), recorded in `fps`.  Durable state: `written` (shard
files flushed by `write_shard`), `rejLog` (rejection rows appended by
`append_jsonl`), `fps`, and `savedProcessed` (the `processed_docs` counter in
the last `ckpt.save` for this source).  In-memory buffers lost on a crash:
`shard` and `rejs`. -/

structure DriverCfg where
  shard_docs : Nat
  log_every : Nat
  ckpt_every : Nat
deriving DecidableEq

structure DriverState where
  i : Nat
  shard : List Nat
  rejs : List Nat
  written : List Nat
  rejLog : List Nat
  fps : List Nat
  savedProcessed : Nat
  shardIdx : Nat
deriving DecidableEq

def initDriver : DriverState := ⟨0, [], [], [], [], [], 0, 0⟩

/-- One iteration of the `for i, raw in enumerate(it)` body of `build_local`:
the stage chain runs (persisting fingerprints), then either the accept path
(append to the shard; flush the shard, the rejection buffer and the
checkpoint when the shard is full; else flush rejections on the `log_every`
boundary) or the reject path (append to `rejs`; flush rejections on the
`log_every` boundary; save the checkpoint with `processed_docs = i + 1` on
the `ckpt_every` boundary). -/
def driverStep (cfg : DriverCfg) (outcome : Nat → Bool) (s : DriverState) : DriverState :=
  let i := s.i
  let s := { s with fps := s.fps ++ [i] }
  if outcome i then
    let shard := s.shard ++ [i]
    if cfg.shard_docs ≤ shard.length then
      { s with i := i + 1, shard := [], rejs := [],
               written := s.written ++ shard, rejLog := s.rejLog ++ s.rejs,
               savedProcessed := i + 1, shardIdx := s.shardIdx + 1 }
    else if (i + 1) % cfg.log_every = 0 then
      { s with i := i + 1, shard := shard, rejs := [], rejLog := s.rejLog ++ s.rejs }
    else
      { s with i := i + 1, shard := shard }
  else
    let rejs := s.rejs ++ [i]
    let s1 := if (i + 1) % cfg.log_every = 0 then
        { s with rejs := [], rejLog := s.rejLog ++ rejs }
      else { s with rejs := rejs }
    if (i + 1) % cfg.ckpt_every = 0 then
      { s1 with i := i + 1, savedProcessed := i + 1 }
    else { s1 with i := i + 1 }

/-- The loop after `n` documents, from a fresh start. -/
def driverRun (cfg : DriverCfg) (outcome : Nat → Bool) : Nat → DriverState
  | 0 => initDriver
  | n + 1 => driverStep cfg outcome (driverRun cfg outcome n)

/-- End of source: flush the remaining shard, flush the rejection buffer and
save the final checkpoint with `processed_docs = final_processed`. -/
def driverFinish (s : DriverState) : DriverState :=
  { s with shard := [], rejs := [],
           written := s.written ++ s.shard, rejLog := s.rejLog ++ s.rejs,
           shardIdx := if s.shard.isEmpty then s.shardIdx else s.shardIdx + 1,
           savedProcessed := s.i }

/-! ## Claim C1 -/

/-- The claim's soundness condition on a checkpoint: every document the
saved `processed_docs` counter covers has its fingerprints persisted and has
either been written to a durable shard or logged as rejected. -/
def ckptDurableSound (s : DriverState) : Prop :=
  ∀ d < s.savedProcessed, d ∈ s.fps ∧ (d ∈ s.written ∨ d ∈ s.rejLog)

instance (s : DriverState) : Decidable (ckptDurableSound s) := by
  unfold ckptDurableSound
  infer_instance

/-- What the run actually maintains at every step. -/
def driverInv (s : DriverState) : Prop :=
  s.savedProcessed ≤ s.i ∧
  (∀ d, d < s.i → d ∈ s.fps) ∧
  (∀ d, d < s.i → d ∈ s.written ∨ d ∈ s.rejLog ∨ d ∈ s.shard ∨ d ∈ s.rejs)

theorem driverInv_init : driverInv initDriver :=
  ⟨Nat.le_refl 0,
   fun d hd => absurd hd (Nat.not_lt_zero d),
   fun d hd => absurd hd (Nat.not_lt_zero d)⟩

theorem driverInv_step (cfg : DriverCfg) (outcome : Nat → Bool) (s : DriverState)
    (h : driverInv s) : driverInv (driverStep cfg outcome s) := by
  obtain ⟨h1, h2, h3⟩ := h
  have hfps : ∀ d, d < s.i + 1 → d ∈ s.fps ++ [s.i] := by
    intro d hd
    rcases Nat.lt_succ_iff_lt_or_eq.1 hd with hlt | rfl
    · exact List.mem_append.2 (Or.inl (h2 d hlt))
    · exact List.mem_append.2 (Or.inr (by simp))
  unfold driverStep
  by_cases ho : outcome s.i = true
  · by_cases hs : cfg.shard_docs ≤ (s.shard ++ [s.i]).length
    · simp only [ho, if_true, hs]
      refine ⟨by simp, fun d hd => hfps d (by simpa using hd), fun d hd => ?_⟩
      simp only at hd ⊢
      rcases Nat.lt_succ_iff_lt_or_eq.1 hd with hlt | rfl
      · rcases h3 d hlt with hw | hr | hsd | hrj
        · exact Or.inl (List.mem_append.2 (Or.inl hw))
        · exact Or.inr (Or.inl (List.mem_append.2 (Or.inl hr)))
        · exact Or.inl (List.mem_append.2 (Or.inr (List.mem_append.2 (Or.inl hsd))))
        · exact Or.inr (Or.inl (List.mem_append.2 (Or.inr hrj)))
      · exact Or.inl (List.mem_append.2 (Or.inr (List.mem_append.2 (Or.inr (by simp)))))
    · by_cases hl : (s.i + 1) % cfg.log_every = 0
      · simp only [ho, if_true, hs, if_false, hl]
        refine ⟨by simpa using Nat.le_succ_of_le h1,
          fun d hd => hfps d (by simpa using hd), fun d hd => ?_⟩
        simp only at hd ⊢
        rcases Nat.lt_succ_iff_lt_or_eq.1 hd with hlt | rfl
        · rcases h3 d hlt with hw | hr | hsd | hrj
          · exact Or.inl hw
          · exact Or.inr (Or.inl (List.mem_append.2 (Or.inl hr)))
          · exact Or.inr (Or.inr (Or.inl (List.mem_append.2 (Or.inl hsd))))
          · exact Or.inr (Or.inl (List.mem_append.2 (Or.inr hrj)))
        · exact Or.inr (Or.inr (Or.inl (List.mem_append.2 (Or.inr (by simp)))))
      · simp only [ho, if_true, hs, if_false, hl]
        refine ⟨by simpa using Nat.le_succ_of_le h1,
          fun d hd => hfps d (by simpa using hd), fun d hd => ?_⟩
        simp only at hd ⊢
        rcases Nat.lt_succ_iff_lt_or_eq.1 hd with hlt | rfl
        · rcases h3 d hlt with hw | hr | hsd | hrj
          · exact Or.inl hw
          · exact Or.inr (Or.inl hr)
          · exact Or.inr (Or.inr (Or.inl (List.mem_append.2 (Or.inl hsd))))
          · exact Or.inr (Or.inr (Or.inr hrj))
        · exact Or.inr (Or.inr (Or.inl (List.mem_append.2 (Or.inr (by simp)))))
  · have ho' : outcome s.i = false := by simpa using ho
    by_cases hl : (s.i + 1) % cfg.log_every = 0 <;>
      by_cases hc : (s.i + 1) % cfg.ckpt_every = 0
    · simp only [ho', if_false, hl, if_true, hc]
      refine ⟨by simp, fun d hd => hfps d (by simpa using hd), fun d hd => ?_⟩
      simp only at hd ⊢
      rcases Nat.lt_succ_iff_lt_or_eq.1 hd with hlt | rfl
      · rcases h3 d hlt with hw | hr | hsd | hrj
        · exact Or.inl hw
        · exact Or.inr (Or.inl (List.mem_append.2 (Or.inl hr)))
        · exact Or.inr (Or.inr (Or.inl hsd))
        · exact Or.inr (Or.inl (List.mem_append.2 (Or.inr (List.mem_append.2 (Or.inl hrj)))))
      · exact Or.inr (Or.inl (List.mem_append.2 (Or.inr (List.mem_append.2 (Or.inr (by simp))))))
    · simp only [ho', if_false, hl, if_true, hc]
      refine ⟨by simpa using Nat.le_succ_of_le h1,
        fun d hd => hfps d (by simpa using hd), fun d hd => ?_⟩
      simp only at hd ⊢
      rcases Nat.lt_succ_iff_lt_or_eq.1 hd with hlt | rfl
      · rcases h3 d hlt with hw | hr | hsd | hrj
        · exact Or.inl hw
        · exact Or.inr (Or.inl (List.mem_append.2 (Or.inl hr)))
        · exact Or.inr (Or.inr (Or.inl hsd))
        · exact Or.inr (Or.inl (List.mem_append.2 (Or.inr (List.mem_append.2 (Or.inl hrj)))))
      · exact Or.inr (Or.inl (List.mem_append.2 (Or.inr (List.mem_append.2 (Or.inr (by simp))))))
    · simp only [ho', if_false, hl, if_true, hc]
      refine ⟨by simp, fun d hd => hfps d (by simpa using hd), fun d hd => ?_⟩
      simp only at hd ⊢
      rcases Nat.lt_succ_iff_lt_or_eq.1 hd with hlt | rfl
      · rcases h3 d hlt with hw | hr | hsd | hrj
        · exact Or.inl hw
        · exact Or.inr (Or.inl hr)
        · exact Or.inr (Or.inr (Or.inl hsd))
        · exact Or.inr (Or.inr (Or.inr (List.mem_append.2 (Or.inl hrj))))
      · exact Or.inr (Or.inr (Or.inr (List.mem_append.2 (Or.inr (by simp)))))
    · simp only [ho', if_false, hl, hc]
      refine ⟨by simpa using Nat.le_succ_of_le h1,
        fun d hd => hfps d (by simpa using hd), fun d hd => ?_⟩
      simp only at hd ⊢
      rcases Nat.lt_succ_iff_lt_or_eq.1 hd with hlt | rfl
      · rcases h3 d hlt with hw | hr | hsd | hrj
        · exact Or.inl hw
        · exact Or.inr (Or.inl hr)
        · exact Or.inr (Or.inr (Or.inl hsd))
        · exact Or.inr (Or.inr (Or.inr (List.mem_append.2 (Or.inl hrj))))
      · exact Or.inr (Or.inr (Or.inr (List.mem_append.2 (Or.inr (by simp)))))

theorem driverInv_run (cfg : DriverCfg) (outcome : Nat → Bool) :
    ∀ n, driverInv (driverRun cfg outcome n) := by
  intro n
  induction n with
  | zero => exact driverInv_init
  | succ k ih => exact driverInv_step cfg outcome _ ih

/-- When every document is accepted (the spec's crash scenario: N documents
shard-written, none rejected), checkpoints are saved only at shard-flush
boundaries, so every checkpointed document is durably written. -/
def allAcceptInv (s : DriverState) : Prop :=
  s.rejs = [] ∧ (∀ d, d < s.i → d ∈ s.written ∨ d ∈ s.shard) ∧
  (∀ d, d < s.savedProcessed → d ∈ s.written)

theorem allAccept_step (cfg : DriverCfg) (outcome : Nat → Bool)
    (hall : ∀ d, outcome d = true) (s : DriverState) (h : allAcceptInv s) :
    allAcceptInv (driverStep cfg outcome s) := by
  obtain ⟨h1, h2, h3⟩ := h
  unfold driverStep
  simp only [hall s.i, if_true]
  by_cases hs : cfg.shard_docs ≤ (s.shard ++ [s.i]).length
  · simp only [hs, if_true]
    refine ⟨rfl, fun d hd => ?_, fun d hd => ?_⟩ <;> simp only at hd ⊢
    · rcases Nat.lt_succ_iff_lt_or_eq.1 hd with hlt | rfl
      · rcases h2 d hlt with hw | hsd
        · exact Or.inl (List.mem_append.2 (Or.inl hw))
        · exact Or.inl (List.mem_append.2 (Or.inr (List.mem_append.2 (Or.inl hsd))))
      · exact Or.inl (List.mem_append.2 (Or.inr (List.mem_append.2 (Or.inr (by simp)))))
    · rcases Nat.lt_succ_iff_lt_or_eq.1 hd with hlt | rfl
      · rcases h2 d hlt with hw | hsd
        · exact List.mem_append.2 (Or.inl hw)
        · exact List.mem_append.2 (Or.inr (List.mem_append.2 (Or.inl hsd)))
      · exact List.mem_append.2 (Or.inr (List.mem_append.2 (Or.inr (by simp))))
  · by_cases hl : (s.i + 1) % cfg.log_every = 0
    · simp only [hs, if_false, hl, if_true]
      refine ⟨rfl, fun d hd => ?_, fun d hd => h3 d (by simpa using hd)⟩
      simp only at hd ⊢
      rcases Nat.lt_succ_iff_lt_or_eq.1 hd with hlt | rfl
      · rcases h2 d hlt with hw | hsd
        · exact Or.inl hw
        · exact Or.inr (List.mem_append.2 (Or.inl hsd))
      · exact Or.inr (List.mem_append.2 (Or.inr (by simp)))
    · simp only [hs, if_false, hl]
      refine ⟨h1, fun d hd => ?_, fun d hd => h3 d (by simpa using hd)⟩
      simp only at hd ⊢
      rcases Nat.lt_succ_iff_lt_or_eq.1 hd with hlt | rfl
      · rcases h2 d hlt with hw | hsd
        · exact Or.inl hw
        · exact Or.inr (List.mem_append.2 (Or.inl hsd))
      · exact Or.inr (List.mem_append.2 (Or.inr (by simp)))

theorem allAccept_run (cfg : DriverCfg) (outcome : Nat → Bool)
    (hall : ∀ d, outcome d = true) :
    ∀ n, allAcceptInv (driverRun cfg outcome n) := by
  intro n
  induction n with
  | zero =>
    exact ⟨rfl, fun d hd => absurd hd (Nat.not_lt_zero d),
      fun d hd => absurd hd (Nat.not_lt_zero d)⟩
  | succ k ih => exact allAccept_step cfg outcome hall _ ih

theorem driverFinish_sound (s : DriverState) (h : driverInv s) :
    ∀ d < (driverFinish s).savedProcessed,
      d ∈ (driverFinish s).written ∨ d ∈ (driverFinish s).rejLog := by
  intro d hd
  obtain ⟨h1, h2, h3⟩ := h
  simp only [driverFinish] at hd ⊢
  rcases h3 d hd with hw | hr | hsd | hrj
  · exact Or.inl (List.mem_append.2 (Or.inl hw))
  · exact Or.inr (List.mem_append.2 (Or.inl hr))
  · exact Or.inl (List.mem_append.2 (Or.inr hsd))
  · exact Or.inr (List.mem_append.2 (Or.inr hrj))

/-- C1 (amended): at every checkpoint save the `processed_docs` counter never
exceeds the number of processed documents — so resume starts at or before any
document whose outcome is not yet durable, and in the all-accepted crash
scenario every checkpointed document is durably shard-written — and the
fingerprints of every counted document have been persisted; every counted
document is durable *or still in an in-memory buffer* (the mid-shard
rejection-path checkpoint can count buffered documents, which is what the
counterexample exhibits), and the end-of-source checkpoint counts only
durable documents. -/
theorem C1_checkpoint_never_skips (cfg : DriverCfg) (outcome : Nat → Bool) (n : Nat)
    (hl : 0 < cfg.log_every) (hc : 0 < cfg.ckpt_every) :
    (driverRun cfg outcome n).savedProcessed ≤ (driverRun cfg outcome n).i ∧
    (∀ d < (driverRun cfg outcome n).savedProcessed, d ∈ (driverRun cfg outcome n).fps) ∧
    (∀ d < (driverRun cfg outcome n).savedProcessed,
        d ∈ (driverRun cfg outcome n).written ∨ d ∈ (driverRun cfg outcome n).rejLog ∨
        d ∈ (driverRun cfg outcome n).shard ∨ d ∈ (driverRun cfg outcome n).rejs) ∧
    (∀ d < (driverFinish (driverRun cfg outcome n)).savedProcessed,
        d ∈ (driverFinish (driverRun cfg outcome n)).written ∨
        d ∈ (driverFinish (driverRun cfg outcome n)).rejLog) ∧
    ((∀ d, outcome d = true) →
      ∀ d < (driverRun cfg outcome n).savedProcessed,
        d ∈ (driverRun cfg outcome n).written) := by
  obtain ⟨h1, h2, h3⟩ := driverInv_run cfg outcome n
  refine ⟨h1, fun d hd => h2 d (lt_of_lt_of_le hd h1),
    fun d hd => h3 d (lt_of_lt_of_le hd h1),
    driverFinish_sound _ (driverInv_run cfg outcome n), ?_⟩
  intro hall d hd
  exact (allAccept_run cfg outcome hall n).2.2 d hd

/-- C1 counterexample: with `shard_docs = 2`, `log_every = 5`,
`ckpt_every = 2`, document 0 accepted and document 1 rejected, the
rejection-path checkpoint saves `processed_docs = 2` while document 0 still
sits in the in-memory shard buffer (not shard-written, not logged as
rejected, lost on a crash), so this checkpoint counts a document whose
outcome is not durable. -/
theorem C1_midshard_checkpoint_counterexample :
    (driverRun ⟨2, 5, 2⟩ (fun i => decide (i = 0)) 2).savedProcessed = 2 ∧
    ¬ ckptDurableSound (driverRun ⟨2, 5, 2⟩ (fun i => decide (i = 0)) 2) ∧
    0 ∉ (driverRun ⟨2, 5, 2⟩ (fun i => decide (i = 0)) 2).written ∧
    0 ∉ (driverRun ⟨2, 5, 2⟩ (fun i => decide (i = 0)) 2).rejLog ∧
    0 ∈ (driverRun ⟨2, 5, 2⟩ (fun i => decide (i = 0)) 2).shard := by
  refine ⟨by decide, by decide, by decide, by decide, by decide⟩

/-- C1 witness: the amended theorem at a concrete configuration and run. -/
theorem C1_checkpoint_witness :
    (driverRun ⟨2, 5, 2⟩ (fun _ => true) 3).savedProcessed ≤
      (driverRun ⟨2, 5, 2⟩ (fun _ => true) 3).i :=
  (C1_checkpoint_never_skips ⟨2, 5, 2⟩ (fun _ => true) 3 (by decide) (by decide)).1

end CleanCorpus
